import Mathlib

/-!
Verification of the decision core of the funding-rate arbitrage bot
(`src/funding_rate_arbitrage_bot/arbitrage_engine.py`).

Shallow embedding conventions:
* Python floats are modelled as rationals (`ℚ`); the claims under study are
  about the arithmetic relations the code computes, not about rounding.
* The two `ValueError`s raised by `_analyze_liquidity_and_slippage` are
  modelled by `Except WalkError`, with one constructor per distinct error
  message of the source.
* The asynchronous collaborator (`DataFetcher`) is modelled as a record of
  pure lookups providing exactly the data the engine consumes:
  `fetch_funding_rates` (rows of symbol and rate), `fetch_total_equity_usd`,
  `fetch_l2_order_book`, `get_fee_rate`, and `fetch_earn_rates`
  (a partial map from base currency to rate).
* `ArbitrageDecision.decision_reason`, a formatted justification string
  built with float `%`-formatting, is not modelled; no other field is
  omitted.  Config sections the engine never reads (okx, database,
  telegram) and config fields it never reads are likewise omitted.
* The source field `capital_per_trade_ratio` is embedded under the name
  `capital_per_trade_frac`.
-/

namespace FRArb

/-- One depth tier of an order book side: a `(price, amount)` pair as in the
`[(price, amount), ...]` lists consumed by `_analyze_liquidity_and_slippage`. -/
structure PriceLevel where
  price : ℚ
  amount : ℚ
deriving DecidableEq

/-- The two `ValueError`s of `_analyze_liquidity_and_slippage`:
empty order-book side (line 235) and insufficient liquidity (line 259). -/
inductive WalkError where
  | emptyBook
  | insufficientLiquidity
deriving DecidableEq

/-- The for-loop of `_analyze_liquidity_and_slippage` (lines 242-256).
State is `(total_cost, total_amount, capital_remaining)`; the branch where
the level covers the remaining capital takes a partial amount and breaks,
the other branch consumes the whole level and continues. -/
def walkLoop : List PriceLevel → ℚ → ℚ → ℚ → ℚ × ℚ × ℚ
  | [], total_cost, total_amount, capital_remaining =>
      (total_cost, total_amount, capital_remaining)
  | l :: ls, total_cost, total_amount, capital_remaining =>
      let order_value := l.price * l.amount
      if capital_remaining ≤ order_value then
        let amount_to_take := capital_remaining / l.price
        (total_cost + amount_to_take * l.price, total_amount + amount_to_take, 0)
      else
        walkLoop ls (total_cost + order_value) (total_amount + l.amount)
          (capital_remaining - order_value)

/-- `_analyze_liquidity_and_slippage` (lines 218-268): walk one side of the
book with `capital`, then either fail, return the degenerate `(0, 0)` when
nothing was filled, or return `(average price, slippage)` where
`slippage = |(avg_price - first_price) / first_price|`. -/
def analyze_liquidity_and_slippage (order_book_side : List PriceLevel)
    (capital : ℚ) : Except WalkError (ℚ × ℚ) :=
  match order_book_side with
  | [] => .error .emptyBook
  | l0 :: _ =>
    let first_price := l0.price
    let r := walkLoop order_book_side 0 0 capital
    if 0 < r.2.2 then .error .insufficientLiquidity
    else if r.2.1 = 0 then .ok (0, 0)
    else
      let avg_price := r.1 / r.2.1
      .ok (avg_price, |(avg_price - first_price) / first_price|)

/-- Cumulative notional value of a book side: `price × amount` summed over
all levels. -/
def sideNotional (side : List PriceLevel) : ℚ :=
  (side.map (fun l => l.price * l.amount)).sum

/-- Sum of the quantities of a book side. -/
def amountSum (side : List PriceLevel) : ℚ :=
  (side.map (fun l => l.amount)).sum

/-- Data-model invariant on order-book sides: every level has positive price
and positive quantity. -/
def PosLevels (side : List PriceLevel) : Prop :=
  ∀ l ∈ side, 0 < l.price ∧ 0 < l.amount

instance (side : List PriceLevel) : Decidable (PosLevels side) :=
  inferInstanceAs (Decidable (∀ l ∈ side, 0 < l.price ∧ 0 < l.amount))

/-- Number of levels the walk touches before stopping: the fully consumed
levels plus, when the walk breaks, the level it breaks at. -/
def consumedCount : List PriceLevel → ℚ → ℕ
  | [], _ => 0
  | l :: ls, capital_remaining =>
    if capital_remaining ≤ l.price * l.amount then 1
    else consumedCount ls (capital_remaining - l.price * l.amount) + 1

/-- Price of the last level the walk touches. -/
def worstConsumedPrice (side : List PriceLevel) (capital : ℚ) : ℚ :=
  (side.getD (consumedCount side capital - 1) ⟨0, 0⟩).price

example : analyze_liquidity_and_slippage [⟨100, 10⟩] 500 = .ok (100, 0) := by
  norm_num [analyze_liquidity_and_slippage, walkLoop]

example : analyze_liquidity_and_slippage [⟨100, 10⟩] 1500 =
    .error .insufficientLiquidity := by
  norm_num [analyze_liquidity_and_slippage, walkLoop]

example : analyze_liquidity_and_slippage [] 500 = .error .emptyBook := rfl

example : analyze_liquidity_and_slippage [⟨100, 10⟩] 0 = .ok (0, 0) := by
  norm_num [analyze_liquidity_and_slippage, walkLoop]

example : analyze_liquidity_and_slippage [⟨100, 10⟩, ⟨101, 10⟩] 1500 =
    .ok (15150 / 151, |((15150 : ℚ) / 151 - 100) / 100|) := by
  norm_num [analyze_liquidity_and_slippage, walkLoop]

example : consumedCount [⟨100, 10⟩, ⟨101, 10⟩] 1500 = 2 := by
  norm_num [consumedCount]

example : worstConsumedPrice [⟨100, 10⟩, ⟨101, 10⟩] 1500 = 101 := by
  norm_num [worstConsumedPrice, consumedCount]

theorem sideNotional_nil : sideNotional [] = 0 := rfl

theorem sideNotional_cons (l : PriceLevel) (ls : List PriceLevel) :
    sideNotional (l :: ls) = l.price * l.amount + sideNotional ls := by
  simp [sideNotional]

theorem amountSum_nil : amountSum [] = 0 := rfl

theorem amountSum_cons (l : PriceLevel) (ls : List PriceLevel) :
    amountSum (l :: ls) = l.amount + amountSum ls := by
  simp [amountSum]

theorem posLevels_cons {l : PriceLevel} {ls : List PriceLevel} :
    PosLevels (l :: ls) ↔ (0 < l.price ∧ 0 < l.amount) ∧ PosLevels ls := by
  simp [PosLevels, List.forall_mem_cons]

theorem sideNotional_nonneg {side : List PriceLevel} (hpos : PosLevels side) :
    0 ≤ sideNotional side := by
  induction side with
  | nil => simp [sideNotional]
  | cons l ls ih =>
    rcases posLevels_cons.mp hpos with ⟨⟨hp, ha⟩, hpos'⟩
    have h2 := ih hpos'
    rw [sideNotional_cons]
    nlinarith

theorem walkLoop_nil (tc ta rem : ℚ) : walkLoop [] tc ta rem = (tc, ta, rem) := rfl

theorem walkLoop_cons (l : PriceLevel) (ls : List PriceLevel) (tc ta rem : ℚ) :
    walkLoop (l :: ls) tc ta rem =
      if rem ≤ l.price * l.amount then
        (tc + rem / l.price * l.price, ta + rem / l.price, 0)
      else
        walkLoop ls (tc + l.price * l.amount) (ta + l.amount)
          (rem - l.price * l.amount) := rfl

/-- Closed form of the final `capital_remaining`: zero when the side's
notional covers the capital, the uncovered remainder otherwise. -/
theorem walkLoop_remaining {ls : List PriceLevel} (hpos : PosLevels ls)
    (tc ta rem : ℚ) (hrem : 0 < rem) :
    (walkLoop ls tc ta rem).2.2 =
      if rem ≤ sideNotional ls then 0 else rem - sideNotional ls := by
  induction ls generalizing tc ta rem with
  | nil =>
    rw [walkLoop_nil, sideNotional_nil, if_neg (by linarith)]
    ring
  | cons l ls ih =>
    rcases posLevels_cons.mp hpos with ⟨⟨hp, ha⟩, hpos'⟩
    have hS := sideNotional_nonneg hpos'
    rw [walkLoop_cons, sideNotional_cons]
    by_cases h : rem ≤ l.price * l.amount
    · rw [if_pos h, if_pos (by nlinarith)]
    · push_neg at h
      rw [if_neg (by linarith), ih hpos' _ _ _ (by linarith)]
      split_ifs with h1 h2 h2
      · rfl
      · exfalso; linarith
      · exfalso; linarith
      · ring

/-- The accumulated amount never decreases along the walk. -/
theorem walkLoop_amount_le {ls : List PriceLevel} (hpos : PosLevels ls)
    (tc ta rem : ℚ) (hrem : 0 ≤ rem) :
    ta ≤ (walkLoop ls tc ta rem).2.1 := by
  induction ls generalizing tc ta rem with
  | nil => rw [walkLoop_nil]
  | cons l ls ih =>
    rcases posLevels_cons.mp hpos with ⟨⟨hp, ha⟩, hpos'⟩
    rw [walkLoop_cons]
    by_cases h : rem ≤ l.price * l.amount
    · rw [if_pos h]
      have : 0 ≤ rem / l.price := div_nonneg hrem (le_of_lt hp)
      simpa using this
    · push_neg at h
      rw [if_neg (by linarith)]
      have := ih hpos' (tc + l.price * l.amount) (ta + l.amount)
        (rem - l.price * l.amount) (by linarith)
      linarith

/-- With positive remaining capital covered by the side's notional, the walk
fills a strictly positive amount. -/
theorem walkLoop_amount_lt {ls : List PriceLevel} (hpos : PosLevels ls)
    (tc ta rem : ℚ) (hrem : 0 < rem) (hle : rem ≤ sideNotional ls) :
    ta < (walkLoop ls tc ta rem).2.1 := by
  induction ls generalizing tc ta rem with
  | nil =>
    rw [sideNotional_nil] at hle
    exact absurd hle (by linarith)
  | cons l ls ih =>
    rcases posLevels_cons.mp hpos with ⟨⟨hp, ha⟩, hpos'⟩
    rw [walkLoop_cons]
    by_cases h : rem ≤ l.price * l.amount
    · rw [if_pos h]
      have : 0 < rem / l.price := div_pos hrem hp
      simpa using this
    · push_neg at h
      rw [if_neg (by linarith)]
      rw [sideNotional_cons] at hle
      have := ih hpos' (tc + l.price * l.amount) (ta + l.amount)
        (rem - l.price * l.amount) (by linarith) (by linarith)
      linarith

/-- When the capital strictly exceeds the side's notional, the walk consumes
every level whole. -/
theorem walkLoop_amount_all {ls : List PriceLevel} (hpos : PosLevels ls)
    (tc ta rem : ℚ) (hgt : sideNotional ls < rem) :
    (walkLoop ls tc ta rem).2.1 = ta + amountSum ls := by
  induction ls generalizing tc ta rem with
  | nil => rw [walkLoop_nil, amountSum_nil]; ring
  | cons l ls ih =>
    rcases posLevels_cons.mp hpos with ⟨⟨hp, ha⟩, hpos'⟩
    have hS := sideNotional_nonneg hpos'
    rw [sideNotional_cons] at hgt
    rw [walkLoop_cons, if_neg (by push_neg; nlinarith)]
    rw [ih hpos' _ _ _ (by linarith), amountSum_cons]
    ring

theorem consumedCount_le_length (ls : List PriceLevel) (rem : ℚ) :
    consumedCount ls rem ≤ ls.length := by
  induction ls generalizing rem with
  | nil => simp [consumedCount]
  | cons l ls ih =>
    simp only [consumedCount, List.length_cons]
    split_ifs
    · omega
    · have := ih (rem - l.price * l.amount)
      omega

theorem consumedCount_pos (l : PriceLevel) (ls : List PriceLevel) (rem : ℚ) :
    1 ≤ consumedCount (l :: ls) rem := by
  simp only [consumedCount]
  split_ifs <;> omega

/-- Weighted-average invariant: if every consumed level's price lies in
`[lo, hi]`, the accumulated cost stays between `lo` and `hi` times the
accumulated amount. -/
theorem walkLoop_cost_bounds {ls : List PriceLevel} (hpos : PosLevels ls)
    (tc ta rem lo hi : ℚ) (hrem : 0 ≤ rem)
    (hmem : ∀ l ∈ ls.take (consumedCount ls rem), lo ≤ l.price ∧ l.price ≤ hi)
    (hlo : lo * ta ≤ tc) (hhi : tc ≤ hi * ta) :
    lo * (walkLoop ls tc ta rem).2.1 ≤ (walkLoop ls tc ta rem).1 ∧
      (walkLoop ls tc ta rem).1 ≤ hi * (walkLoop ls tc ta rem).2.1 := by
  induction ls generalizing tc ta rem with
  | nil => rw [walkLoop_nil]; exact ⟨hlo, hhi⟩
  | cons l ls ih =>
    rcases posLevels_cons.mp hpos with ⟨⟨hp, ha⟩, hpos'⟩
    by_cases h : rem ≤ l.price * l.amount
    · rw [walkLoop_cons, if_pos h]
      have hl : lo ≤ l.price ∧ l.price ≤ hi := by
        apply hmem
        simp [consumedCount, if_pos h]
      have hw : 0 ≤ rem / l.price := div_nonneg hrem hp.le
      constructor
      · have : lo * (rem / l.price) ≤ rem / l.price * l.price := by nlinarith [hl.1]
        simp only []
        nlinarith
      · have : rem / l.price * l.price ≤ hi * (rem / l.price) := by nlinarith [hl.2]
        simp only []
        nlinarith
    · push_neg at h
      rw [walkLoop_cons, if_neg (by linarith)]
      have hl : lo ≤ l.price ∧ l.price ≤ hi := by
        apply hmem
        simp only [consumedCount, if_neg (by push_neg; linarith : ¬rem ≤ l.price * l.amount),
          List.take_succ_cons]
        exact List.mem_cons_self l _
      have hmem' : ∀ x ∈ ls.take (consumedCount ls (rem - l.price * l.amount)),
          lo ≤ x.price ∧ x.price ≤ hi := by
        intro x hx
        apply hmem
        simp only [consumedCount, if_neg (by push_neg; linarith : ¬rem ≤ l.price * l.amount),
          List.take_succ_cons]
        exact List.mem_cons_of_mem l hx
      exact ih hpos' _ _ _ (by linarith) hmem'
        (by nlinarith [hl.1]) (by nlinarith [hl.2])

/-- Strict version of the lower bound: if every consumed level's price is
strictly above `lo` and something is consumed, the average is strictly
above `lo`. -/
theorem walkLoop_cost_lt_lo {ls : List PriceLevel} (hpos : PosLevels ls)
    (tc ta rem lo : ℚ) (hrem : 0 < rem) (hle : rem ≤ sideNotional ls)
    (hmem : ∀ l ∈ ls.take (consumedCount ls rem), lo < l.price)
    (hlo : lo * ta ≤ tc) :
    lo * (walkLoop ls tc ta rem).2.1 < (walkLoop ls tc ta rem).1 := by
  induction ls generalizing tc ta rem with
  | nil =>
    rw [sideNotional_nil] at hle
    exact absurd hle (by linarith)
  | cons l ls ih =>
    rcases posLevels_cons.mp hpos with ⟨⟨hp, ha⟩, hpos'⟩
    by_cases h : rem ≤ l.price * l.amount
    · rw [walkLoop_cons, if_pos h]
      have hl : lo < l.price := by
        apply hmem
        simp [consumedCount, if_pos h]
      have hw : 0 < rem / l.price := div_pos hrem hp
      simp only []
      nlinarith
    · push_neg at h
      rw [walkLoop_cons, if_neg (by linarith)]
      have hl : lo < l.price := by
        apply hmem
        simp only [consumedCount, if_neg (by push_neg; linarith : ¬rem ≤ l.price * l.amount),
          List.take_succ_cons]
        exact List.mem_cons_self l _
      have hmem' : ∀ x ∈ ls.take (consumedCount ls (rem - l.price * l.amount)),
          lo < x.price := by
        intro x hx
        apply hmem
        simp only [consumedCount, if_neg (by push_neg; linarith : ¬rem ≤ l.price * l.amount),
          List.take_succ_cons]
        exact List.mem_cons_of_mem l hx
      rw [sideNotional_cons] at hle
      exact ih hpos' _ _ _ (by linarith) (by linarith) hmem' (by nlinarith)

/-- Strict version of the upper bound. -/
theorem walkLoop_cost_lt_hi {ls : List PriceLevel} (hpos : PosLevels ls)
    (tc ta rem hi : ℚ) (hrem : 0 < rem) (hle : rem ≤ sideNotional ls)
    (hmem : ∀ l ∈ ls.take (consumedCount ls rem), l.price < hi)
    (hhi : tc ≤ hi * ta) :
    (walkLoop ls tc ta rem).1 < hi * (walkLoop ls tc ta rem).2.1 := by
  induction ls generalizing tc ta rem with
  | nil =>
    rw [sideNotional_nil] at hle
    exact absurd hle (by linarith)
  | cons l ls ih =>
    rcases posLevels_cons.mp hpos with ⟨⟨hp, ha⟩, hpos'⟩
    by_cases h : rem ≤ l.price * l.amount
    · rw [walkLoop_cons, if_pos h]
      have hl : l.price < hi := by
        apply hmem
        simp [consumedCount, if_pos h]
      have hw : 0 < rem / l.price := div_pos hrem hp
      simp only []
      nlinarith
    · push_neg at h
      rw [walkLoop_cons, if_neg (by linarith)]
      have hl : l.price < hi := by
        apply hmem
        simp only [consumedCount, if_neg (by push_neg; linarith : ¬rem ≤ l.price * l.amount),
          List.take_succ_cons]
        exact List.mem_cons_self l _
      have hmem' : ∀ x ∈ ls.take (consumedCount ls (rem - l.price * l.amount)),
          x.price < hi := by
        intro x hx
        apply hmem
        simp only [consumedCount, if_neg (by push_neg; linarith : ¬rem ≤ l.price * l.amount),
          List.take_succ_cons]
        exact List.mem_cons_of_mem l hx
      rw [sideNotional_cons] at hle
      exact ih hpos' _ _ _ (by linarith) (by linarith) hmem' (by nlinarith)

/-- Zero capital short-circuits the first level: nothing is consumed. -/
theorem walkLoop_zero_capital (l : PriceLevel) (ls : List PriceLevel)
    (hp : 0 < l.price) (ha : 0 < l.amount) :
    walkLoop (l :: ls) 0 0 0 = (0, 0, 0) := by
  rw [walkLoop_cons, if_pos (by nlinarith)]
  simp

/-- Unfolding equation for `analyze_liquidity_and_slippage` on a non-empty
side. -/
theorem analyze_cons_eq (l0 : PriceLevel) (ls : List PriceLevel) (capital : ℚ) :
    analyze_liquidity_and_slippage (l0 :: ls) capital =
      if 0 < (walkLoop (l0 :: ls) 0 0 capital).2.2 then
        .error .insufficientLiquidity
      else if (walkLoop (l0 :: ls) 0 0 capital).2.1 = 0 then .ok (0, 0)
      else
        .ok ((walkLoop (l0 :: ls) 0 0 capital).1 / (walkLoop (l0 :: ls) 0 0 capital).2.1,
          |((walkLoop (l0 :: ls) 0 0 capital).1 / (walkLoop (l0 :: ls) 0 0 capital).2.1
              - l0.price) / l0.price|) := rfl

/-- Walking a positive-level side with zero capital silently succeeds with
the degenerate fill `(0, 0)`. -/
theorem analyze_zero_capital (l0 : PriceLevel) (ls : List PriceLevel)
    (hpos : PosLevels (l0 :: ls)) :
    analyze_liquidity_and_slippage (l0 :: ls) 0 = .ok (0, 0) := by
  rcases posLevels_cons.mp hpos with ⟨⟨hp, ha⟩, _⟩
  rw [analyze_cons_eq, walkLoop_zero_capital l0 ls hp ha]
  norm_num

/-- On a side whose prices are strictly monotone (ascending for asks,
descending for bids), every consumed level's price lies between the best
price and the price of the last consumed level. -/
theorem consumed_price_bounds (l0 : PriceLevel) (ls : List PriceLevel)
    (capital : ℚ)
    (hmono : List.Pairwise (fun a b => a.price < b.price) (l0 :: ls) ∨
             List.Pairwise (fun a b => b.price < a.price) (l0 :: ls)) :
    ∀ x ∈ (l0 :: ls).take (consumedCount (l0 :: ls) capital),
      min l0.price (worstConsumedPrice (l0 :: ls) capital) ≤ x.price ∧
      x.price ≤ max l0.price (worstConsumedPrice (l0 :: ls) capital) := by
  intro x hx
  have hn1 : 1 ≤ consumedCount (l0 :: ls) capital := consumedCount_pos l0 ls capital
  have hnlen : consumedCount (l0 :: ls) capital ≤ (l0 :: ls).length :=
    consumedCount_le_length _ _
  obtain ⟨i, hi, hxi⟩ := List.mem_iff_getElem.mp hx
  rw [List.length_take] at hi
  have hi2 : i < consumedCount (l0 :: ls) capital := lt_of_lt_of_le hi (min_le_left _ _)
  have hilen : i < (l0 :: ls).length := lt_of_lt_of_le hi2 hnlen
  rw [List.getElem_take] at hxi
  have hn : consumedCount (l0 :: ls) capital - 1 < (l0 :: ls).length := by omega
  have hworst : worstConsumedPrice (l0 :: ls) capital =
      ((l0 :: ls)[consumedCount (l0 :: ls) capital - 1]).price := by
    rw [worstConsumedPrice, List.getD_eq_getElem _ _ hn]
  have hlen0 : 0 < (l0 :: ls).length := by simp
  have h0 : (l0 :: ls)[0] = l0 := rfl
  rcases hmono with hasc | hdesc
  · have hpair := List.pairwise_iff_getElem.mp hasc
    have hlow : l0.price ≤ x.price := by
      rcases Nat.eq_zero_or_pos i with h | h
      · subst h; rw [← hxi, h0]
      · have := hpair 0 i (by simp) hilen h
        rw [h0] at this; rw [← hxi]; exact le_of_lt this
    have hhigh : x.price ≤ worstConsumedPrice (l0 :: ls) capital := by
      rw [hworst]
      rcases eq_or_lt_of_le (show i ≤ consumedCount (l0 :: ls) capital - 1 by omega)
        with heq | hlt
      · subst heq; rw [← hxi]
      · exact le_of_lt (by rw [← hxi]; exact hpair i _ hilen (by omega) hlt)
    exact ⟨le_trans (min_le_left _ _) hlow, le_trans hhigh (le_max_right _ _)⟩
  · have hpair := List.pairwise_iff_getElem.mp hdesc
    have hhigh : x.price ≤ l0.price := by
      rcases Nat.eq_zero_or_pos i with h | h
      · subst h; rw [← hxi, h0]
      · have := hpair 0 i (by simp) hilen h
        rw [h0] at this; rw [← hxi]; exact le_of_lt this
    have hlow : worstConsumedPrice (l0 :: ls) capital ≤ x.price := by
      rw [hworst]
      rcases eq_or_lt_of_le (show i ≤ consumedCount (l0 :: ls) capital - 1 by omega)
        with heq | hlt
      · subst heq; rw [← hxi]
      · exact le_of_lt (by rw [← hxi]; exact hpair i _ hilen (by omega) hlt)
    exact ⟨le_trans (min_le_right _ _) hlow, le_trans hhigh (le_max_left _ _)⟩

/-- C2: for every non-empty order-book side (of positive levels) and every
positive capital, the walk fails with `InsufficientLiquidity` if and only if
the side's cumulative notional value is strictly less than the capital, and
succeeds with a fill result whenever the cumulative notional is at least the
capital. -/
theorem walk_insufficient_liquidity_iff (l0 : PriceLevel) (ls : List PriceLevel)
    (capital : ℚ) (hpos : PosLevels (l0 :: ls)) (hcap : 0 < capital) :
    (analyze_liquidity_and_slippage (l0 :: ls) capital =
        .error .insufficientLiquidity ↔ sideNotional (l0 :: ls) < capital) ∧
    (capital ≤ sideNotional (l0 :: ls) →
      ∃ fill, analyze_liquidity_and_slippage (l0 :: ls) capital = .ok fill) := by
  have hrem := walkLoop_remaining hpos 0 0 capital hcap
  rw [analyze_cons_eq, hrem]
  by_cases h : capital ≤ sideNotional (l0 :: ls)
  · rw [if_pos h, if_neg (lt_irrefl 0)]
    constructor
    · refine iff_of_false ?_ (not_lt.mpr h)
      split_ifs <;> simp
    · intro _
      split_ifs
      · exact ⟨(0, 0), rfl⟩
      · exact ⟨_, rfl⟩
  · push_neg at h
    rw [if_neg (not_le.mpr h), if_pos (by linarith)]
    exact ⟨iff_of_true rfl h, fun hc => absurd hc (not_le.mpr h)⟩

/-- Witness for C2 at concrete inputs: a book of notional 1000 covers a
500-capital walk and cannot cover a 1500-capital walk. -/
theorem walk_insufficient_liquidity_iff_witness :
    (∃ fill, analyze_liquidity_and_slippage [⟨100, 10⟩] 500 = .ok fill) ∧
    analyze_liquidity_and_slippage [⟨100, 10⟩] 1500 =
      .error .insufficientLiquidity := by
  constructor
  · exact (walk_insufficient_liquidity_iff ⟨100, 10⟩ [] 500 (by decide)
      (by norm_num)).2 (by norm_num [sideNotional])
  · exact (walk_insufficient_liquidity_iff ⟨100, 10⟩ [] 1500 (by decide)
      (by norm_num)).1.mpr (by norm_num [sideNotional])

/-- C3 counterexample: at the concrete input `side = [(100, 10)]`,
`capital = 0`, the walker finishes with `filled_quantity == 0` but does NOT
fail with a degenerate-fill error: it returns the fill result `(0, 0)`. -/
theorem zero_capital_not_error :
    analyze_liquidity_and_slippage [⟨100, 10⟩] 0 = .ok (0, 0) ∧
    ∀ e, analyze_liquidity_and_slippage [⟨100, 10⟩] 0 ≠ .error e := by
  have h := analyze_zero_capital ⟨100, 10⟩ [] (by decide)
  exact ⟨h, fun e => by rw [h]; simp⟩

/-- C3 amended: when the walker finishes its pass with
`filled_quantity == 0` (which only occurs for zero capital), the walk
returns the degenerate fill result `(0, 0)` rather than failing. -/
theorem zero_fill_degenerate_ok (l0 : PriceLevel) (ls : List PriceLevel)
    (hpos : PosLevels (l0 :: ls)) :
    analyze_liquidity_and_slippage (l0 :: ls) 0 = .ok (0, 0) ∧
    ∀ capital : ℚ, capital ≠ 0 → (walkLoop (l0 :: ls) 0 0 capital).2.1 ≠ 0 := by
  rcases posLevels_cons.mp hpos with ⟨⟨hp, ha⟩, hpos'⟩
  refine ⟨analyze_zero_capital l0 ls hpos, ?_⟩
  intro capital hne
  rcases lt_trichotomy capital 0 with hlt | h0 | hgt
  · rw [walkLoop_cons, if_pos (by nlinarith)]
    have : capital / l0.price < 0 := div_neg_of_neg_of_pos hlt hp
    simp only [zero_add]
    exact ne_of_lt this
  · exact absurd h0 hne
  · by_cases hliq : capital ≤ sideNotional (l0 :: ls)
    · have := walkLoop_amount_lt hpos 0 0 capital hgt hliq
      exact ne_of_gt this
    · push_neg at hliq
      rw [walkLoop_amount_all hpos 0 0 capital hliq, zero_add, amountSum_cons]
      have h2 : 0 ≤ amountSum ls := by
        rw [amountSum]
        apply List.sum_nonneg
        intro x hx
        obtain ⟨l, hl, rfl⟩ := List.mem_map.mp hx
        exact (hpos' l hl).2.le
      exact ne_of_gt (by linarith)

/-- Witness for C3's amended theorem at a concrete side. -/
theorem zero_fill_degenerate_ok_witness :
    analyze_liquidity_and_slippage [⟨100, 10⟩] 0 = .ok (0, 0) ∧
    (walkLoop [⟨100, 10⟩] 0 0 500).2.1 ≠ 0 := by
  have h := zero_fill_degenerate_ok ⟨100, 10⟩ [] (by decide)
  exact ⟨h.1, h.2 500 (by norm_num)⟩

/-- C9: walking any non-empty (positive-level) order-book side with capital
exactly 0 does not fail; the degenerate zero-capital case is absorbed at the
walker's interface as the fill result `(0, 0)`. -/
theorem zero_capital_silently_ok (l0 : PriceLevel) (ls : List PriceLevel)
    (hpos : PosLevels (l0 :: ls)) :
    analyze_liquidity_and_slippage (l0 :: ls) 0 = .ok (0, 0) :=
  analyze_zero_capital l0 ls hpos

/-- Witness for C9 at a concrete side. -/
theorem zero_capital_silently_ok_witness :
    analyze_liquidity_and_slippage [⟨100, 10⟩, ⟨101, 5⟩] 0 = .ok (0, 0) :=
  zero_capital_silently_ok ⟨100, 10⟩ [⟨101, 5⟩] (by decide)

/-- C5: for every strictly monotone order-book side of positive prices and
quantities whose cumulative notional covers the (positive) capital, the walk
succeeds, its average price lies between the best price and the worst
consumed price, its slippage is non-negative, and the slippage is zero
exactly when the entire capital is filled at the best level. -/
theorem walk_avg_price_bounds (l0 : PriceLevel) (ls : List PriceLevel)
    (capital : ℚ) (hpos : PosLevels (l0 :: ls)) (hcap : 0 < capital)
    (hliq : capital ≤ sideNotional (l0 :: ls))
    (hmono : List.Pairwise (fun a b => a.price < b.price) (l0 :: ls) ∨
             List.Pairwise (fun a b => b.price < a.price) (l0 :: ls)) :
    ∃ avg slip,
      analyze_liquidity_and_slippage (l0 :: ls) capital = .ok (avg, slip) ∧
      min l0.price (worstConsumedPrice (l0 :: ls) capital) ≤ avg ∧
      avg ≤ max l0.price (worstConsumedPrice (l0 :: ls) capital) ∧
      0 ≤ slip ∧
      (slip = 0 ↔ capital ≤ l0.price * l0.amount) := by
  rcases posLevels_cons.mp hpos with ⟨⟨hp, ha⟩, hpos'⟩
  have hrem0 : (walkLoop (l0 :: ls) 0 0 capital).2.2 = 0 := by
    rw [walkLoop_remaining hpos 0 0 capital hcap, if_pos hliq]
  have hta : 0 < (walkLoop (l0 :: ls) 0 0 capital).2.1 :=
    walkLoop_amount_lt hpos 0 0 capital hcap hliq
  have hbounds := walkLoop_cost_bounds hpos 0 0 capital
    (min l0.price (worstConsumedPrice (l0 :: ls) capital))
    (max l0.price (worstConsumedPrice (l0 :: ls) capital)) hcap.le
    (consumed_price_bounds l0 ls capital hmono)
    (by simp) (by simp)
  rw [analyze_cons_eq, hrem0, if_neg (lt_irrefl 0), if_neg (ne_of_gt hta)]
  refine ⟨_, _, rfl, ?_, ?_, abs_nonneg _, ?_, ?_⟩
  · exact (le_div_iff₀ hta).mpr hbounds.1
  · exact (div_le_iff₀ hta).mpr hbounds.2
  · intro hslip
    by_contra hnb
    push_neg at hnb
    have hwalk : walkLoop (l0 :: ls) 0 0 capital =
        walkLoop ls (0 + l0.price * l0.amount) (0 + l0.amount)
          (capital - l0.price * l0.amount) := by
      rw [walkLoop_cons, if_neg (not_le.mpr hnb)]
    have hrem2 : 0 < capital - l0.price * l0.amount := by linarith
    have hliq2 : capital - l0.price * l0.amount ≤ sideNotional ls := by
      rw [sideNotional_cons] at hliq; linarith
    have habs : |((walkLoop (l0 :: ls) 0 0 capital).1 /
        (walkLoop (l0 :: ls) 0 0 capital).2.1 - l0.price) / l0.price| ≠ 0 := by
      rcases hmono with hasc | hdesc
      · have hmem : ∀ x ∈ ls.take (consumedCount ls (capital - l0.price * l0.amount)),
            l0.price < x.price := by
          intro x hx
          exact (List.pairwise_cons.mp hasc).1 x (List.take_subset _ _ hx)
        have hstrict := walkLoop_cost_lt_lo hpos' (0 + l0.price * l0.amount)
          (0 + l0.amount) (capital - l0.price * l0.amount) l0.price hrem2 hliq2
          hmem (le_of_eq (by ring))
        rw [← hwalk] at hstrict
        have havg : l0.price < (walkLoop (l0 :: ls) 0 0 capital).1 /
            (walkLoop (l0 :: ls) 0 0 capital).2.1 := (lt_div_iff₀ hta).mpr hstrict
        have : 0 < ((walkLoop (l0 :: ls) 0 0 capital).1 /
            (walkLoop (l0 :: ls) 0 0 capital).2.1 - l0.price) / l0.price :=
          div_pos (by linarith) hp
        exact ne_of_gt (abs_pos.mpr (ne_of_gt this))
      · have hmem : ∀ x ∈ ls.take (consumedCount ls (capital - l0.price * l0.amount)),
            x.price < l0.price := by
          intro x hx
          exact (List.pairwise_cons.mp hdesc).1 x (List.take_subset _ _ hx)
        have hstrict := walkLoop_cost_lt_hi hpos' (0 + l0.price * l0.amount)
          (0 + l0.amount) (capital - l0.price * l0.amount) l0.price hrem2 hliq2
          hmem (le_of_eq (by ring))
        rw [← hwalk] at hstrict
        have havg : (walkLoop (l0 :: ls) 0 0 capital).1 /
            (walkLoop (l0 :: ls) 0 0 capital).2.1 < l0.price := (div_lt_iff₀ hta).mpr hstrict
        have : ((walkLoop (l0 :: ls) 0 0 capital).1 /
            (walkLoop (l0 :: ls) 0 0 capital).2.1 - l0.price) / l0.price < 0 :=
          div_neg_of_neg_of_pos (by linarith) hp
        exact ne_of_gt (abs_pos.mpr (ne_of_lt this))
    exact habs hslip
  · intro hbreak
    have hwalk : walkLoop (l0 :: ls) 0 0 capital =
        (0 + capital / l0.price * l0.price, 0 + capital / l0.price, 0) := by
      rw [walkLoop_cons, if_pos hbreak]
    have hw : capital / l0.price ≠ 0 :=
      ne_of_gt (div_pos hcap hp)
    rw [hwalk]
    simp only [zero_add]
    rw [mul_comm, mul_div_assoc, div_self hw, mul_one]
    simp
/-- Witness for C5 on a concrete two-level ascending book where the walk
spills into the second level. -/
theorem walk_avg_price_bounds_witness :
    ∃ avg slip,
      analyze_liquidity_and_slippage [⟨100, 10⟩, ⟨101, 10⟩] 1500 = .ok (avg, slip) ∧
      min (100 : ℚ) (worstConsumedPrice [⟨100, 10⟩, ⟨101, 10⟩] 1500) ≤ avg ∧
      avg ≤ max (100 : ℚ) (worstConsumedPrice [⟨100, 10⟩, ⟨101, 10⟩] 1500) ∧
      0 ≤ slip ∧
      (slip = 0 ↔ (1500 : ℚ) ≤ 100 * 10) :=
  walk_avg_price_bounds ⟨100, 10⟩ [⟨101, 10⟩] 1500 (by decide) (by norm_num)
    (by norm_num [sideNotional]) (Or.inl (by decide))

/-- One side pair of an L2 book, as in `order_book['spot']` /
`order_book['swap']`. -/
structure OrderBookPair where
  asks : List PriceLevel
  bids : List PriceLevel
deriving DecidableEq

/-- The L2 order book consumed by `_evaluate_opportunity`:
`{'spot': {'asks':…, 'bids':…}, 'swap': {'asks':…, 'bids':…}}`. -/
structure OrderBook where
  spot : OrderBookPair
  swap : OrderBookPair
deriving DecidableEq

/-- The strategy-config fields the engine reads.  The source field
`capital_per_trade_ratio` is embedded as `capital_per_trade_frac`. -/
structure StrategyConfig where
  min_annualized_return : ℚ
  capital_per_trade_frac : ℚ
  enable_negative_rate_strategy : Bool
  enable_spot_earning : Bool
deriving DecidableEq

/-- The risk-config fields the engine reads. -/
structure RiskConfig where
  leverage : ℚ
  max_allowed_slippage : ℚ
deriving DecidableEq

/-- The configuration sections the engine reads. -/
structure AppConfig where
  strategy : StrategyConfig
  risk : RiskConfig
deriving DecidableEq

/-- The collaborator interface consumed by the engine, modelled as pure
lookups: the funding-rate rows `(symbol, rate)` in iteration order, the
total account equity, the per-symbol L2 book (`none` models a missing or
incomplete book, which the engine skips), the taker-fee schedule
`get_fee_rate(symbol, market, side)`, and the earn-rate map keyed by base
currency (`none` models a currency absent from the map). -/
structure DataFetcher where
  funding_rates : List (String × ℚ)
  total_equity_usd : ℚ
  l2_order_book : String → Option OrderBook
  fee_rate : String → String → String → ℚ
  earn_rates : String → Option ℚ

/-- `ArbitrageDecision` (lines 12-47).  All numeric and identifying fields
are modelled; `decision_reason` (a `%`-formatted justification string) is
not. -/
structure ArbitrageDecision where
  symbol : String
  direction : String
  leverage : ℚ
  capital_to_use : ℚ
  estimated_funding_rate : ℚ
  spot_ask_price : ℚ
  spot_bid_price : ℚ
  swap_ask_price : ℚ
  swap_bid_price : ℚ
  avg_spot_price : ℚ
  avg_swap_price : ℚ
  spot_slippage : ℚ
  swap_slippage : ℚ
  net_apr : ℚ
  trade_fee_cost : ℚ
  slippage_cost : ℚ
  spot_earning_rate : ℚ
  borrow_interest_rate : ℚ
deriving DecidableEq

/-- `xs[0][0] if xs else 0`: the quoted top-of-book price fields of a
Decision (lines 201-204). -/
def headPrice : List PriceLevel → ℚ
  | [] => 0
  | l :: _ => l.price

/-- `symbol.split('/')[0]` (line 161). -/
def base_currency (symbol : String) : String :=
  (symbol.splitOn "/").headD ""

/-- Lines 158-164: the optional spot-earning yield, `0` unless the
direction is SHORT, the feature is enabled, and the base currency has an
earn rate. -/
def spotEarningRate (config : AppConfig) (fetcher : DataFetcher)
    (symbol direction : String) : ℚ :=
  if direction = "SHORT" ∧ config.strategy.enable_spot_earning then
    match fetcher.earn_rates (base_currency symbol) with
    | some r => r
    | none => 0
  else 0

/-- The cost/benefit arithmetic of `_evaluate_opportunity` (lines 147-177):
`slippage_cost_pct = spot_slippage + swap_slippage`,
`total_taker_fee_pct = spot_taker_fee + swap_taker_fee`,
`funding_apr = |funding_rate| * 3 * 365`,
`total_cost_apr = total_taker_fee_pct * 2 + slippage_cost_pct * 2`,
`net_apr = funding_apr + spot_earning_rate - total_cost_apr
           - borrow_interest_rate`. -/
def computeNetApr (funding_rate spot_slippage swap_slippage spot_taker_fee
    swap_taker_fee spot_earning_rate borrow_interest_rate : ℚ) : ℚ :=
  let slippage_cost_pct := spot_slippage + swap_slippage
  let total_taker_fee_pct := spot_taker_fee + swap_taker_fee
  let funding_apr := |funding_rate| * 3 * 365
  let total_cost_apr := total_taker_fee_pct * 2 + slippage_cost_pct * 2
  funding_apr + spot_earning_rate - total_cost_apr - borrow_interest_rate

/-- `_evaluate_opportunity` (lines 109-216).  `none` stands for the Python
`None` returned on a missing book, a walker `ValueError`, a slippage gate
hit, or a net APR at or below the threshold. -/
def evaluate_opportunity (config : AppConfig) (fetcher : DataFetcher)
    (symbol : String) (funding_rate : ℚ) (direction : String)
    (capital_to_use : ℚ) : Option ArbitrageDecision :=
  match fetcher.l2_order_book symbol with
  | none => none
  | some order_book =>
    let spot_side := if direction = "SHORT" then order_book.spot.asks
      else order_book.spot.bids
    let swap_side := if direction = "SHORT" then order_book.swap.bids
      else order_book.swap.asks
    match analyze_liquidity_and_slippage spot_side capital_to_use with
    | .error _ => none
    | .ok (avg_spot_price, spot_slippage) =>
      match analyze_liquidity_and_slippage swap_side capital_to_use with
      | .error _ => none
      | .ok (avg_swap_price, swap_slippage) =>
        let max_slippage := config.risk.max_allowed_slippage
        if spot_slippage > max_slippage ∨ swap_slippage > max_slippage then
          none
        else
          let spot_taker_fee := fetcher.fee_rate symbol "spot" "taker"
          let swap_taker_fee := fetcher.fee_rate symbol "swap" "taker"
          let total_taker_fee_pct := spot_taker_fee + swap_taker_fee
          let spot_earning_rate := spotEarningRate config fetcher symbol direction
          let borrow_interest_rate : ℚ := 0
          let net_apr := computeNetApr funding_rate spot_slippage swap_slippage
            spot_taker_fee swap_taker_fee spot_earning_rate borrow_interest_rate
          if net_apr > config.strategy.min_annualized_return then
            some {
              symbol := symbol
              direction := direction
              leverage := config.risk.leverage
              capital_to_use := capital_to_use
              estimated_funding_rate := funding_rate
              spot_ask_price := headPrice order_book.spot.asks
              spot_bid_price := headPrice order_book.spot.bids
              swap_ask_price := headPrice order_book.swap.asks
              swap_bid_price := headPrice order_book.swap.bids
              avg_spot_price := avg_spot_price
              avg_swap_price := avg_swap_price
              spot_slippage := spot_slippage
              swap_slippage := swap_slippage
              net_apr := net_apr
              trade_fee_cost := total_taker_fee_pct
              slippage_cost := spot_slippage + swap_slippage
              spot_earning_rate := spot_earning_rate
              borrow_interest_rate := borrow_interest_rate }
          else none

/-- Loop body of `find_opportunities` (lines 86-104): per funding-rate row,
try SHORT on a positive rate, then LONG on a negative rate when the
negative-rate strategy is enabled, appending each non-`None` decision. -/
def scanRows (config : AppConfig) (fetcher : DataFetcher)
    (capital_per_trade : ℚ) :
    List (String × ℚ) → List ArbitrageDecision → List ArbitrageDecision
  | [], decisions => decisions
  | (symbol, funding_rate) :: rest, decisions =>
    let decisions1 :=
      if funding_rate > 0 then
        match evaluate_opportunity config fetcher symbol funding_rate "SHORT"
            capital_per_trade with
        | some decision => decisions ++ [decision]
        | none => decisions
      else decisions
    let decisions2 :=
      if funding_rate < 0 ∧ config.strategy.enable_negative_rate_strategy then
        match evaluate_opportunity config fetcher symbol funding_rate "LONG"
            capital_per_trade with
        | some decision => decisions1 ++ [decision]
        | none => decisions1
      else decisions1
    scanRows config fetcher capital_per_trade rest decisions2

/-- `find_opportunities` (lines 61-107): short-circuit on an empty
funding-rate universe or zero total equity, otherwise scan every row with
`capital_per_trade = total_balance * capital_per_trade_ratio`. -/
def find_opportunities (config : AppConfig) (fetcher : DataFetcher) :
    List ArbitrageDecision :=
  if fetcher.funding_rates = [] then []
  else if fetcher.total_equity_usd = 0 then []
  else
    let capital_per_trade :=
      fetcher.total_equity_usd * config.strategy.capital_per_trade_frac
    scanRows config fetcher capital_per_trade fetcher.funding_rates []

/-- Concrete spec-scenario configuration: threshold 0.15, slippage ceiling
0.01, spot earning and the negative-rate strategy disabled. -/
def cfgC : AppConfig :=
  { strategy :=
      { min_annualized_return := 0.15
        capital_per_trade_frac := 0.1
        enable_negative_rate_strategy := false
        enable_spot_earning := false }
    risk := { leverage := 3, max_allowed_slippage := 0.01 } }

/-- Concrete spec-scenario book: spot asks `[(100, 10)]`, swap bids
`[(101, 10)]`, the unused sides empty. -/
def obC : OrderBook :=
  { spot := { asks := [⟨100, 10⟩], bids := [] }
    swap := { asks := [], bids := [⟨101, 10⟩] } }

/-- Concrete spec-scenario collaborator: one funding-rate row, equity 5000,
taker fees 0.0005 everywhere, no earn rates. -/
def fetcherC : DataFetcher :=
  { funding_rates := [("BTC/USDT", 0.0003)]
    total_equity_usd := 5000
    l2_order_book := fun _ => some obC
    fee_rate := fun _ _ _ => 0.0005
    earn_rates := fun _ => none }

/-- The decision the evaluator produces on the spec scenario. -/
def decisionC : ArbitrageDecision :=
  { symbol := "BTC/USDT"
    direction := "SHORT"
    leverage := 3
    capital_to_use := 500
    estimated_funding_rate := 0.0003
    spot_ask_price := 100
    spot_bid_price := 0
    swap_ask_price := 0
    swap_bid_price := 101
    avg_spot_price := 100
    avg_swap_price := 101
    spot_slippage := 0
    swap_slippage := 0
    net_apr := 0.3265
    trade_fee_cost := 0.001
    slippage_cost := 0
    spot_earning_rate := 0
    borrow_interest_rate := 0 }

/-- The evaluator's output on the spec scenario, computed once and shared
by the concrete instantiations below. -/
theorem eval_scenarioC :
    evaluate_opportunity cfgC fetcherC "BTC/USDT" 0.0003 "SHORT" 500 =
      some decisionC := by
  have habs : |(3 : ℚ) / 10000| = 3 / 10000 := abs_of_pos (by norm_num)
  norm_num [evaluate_opportunity, analyze_liquidity_and_slippage, walkLoop,
    computeNetApr, spotEarningRate, headPrice, cfgC, fetcherC, obC, decisionC,
    habs]

/-- C4: on the concrete scenario (funding rate 0.0003, spot asks
`[(100, 10)]`, swap bids `[(101, 10)]`, capital 500, both taker fees
0.0005, yield 0, threshold 0.15) the evaluator returns a SHORT decision
with spot fill `(100, 0)`, swap fill `(101, 0)`, and
`net_apr = 0.3285 - 0.002 = 0.3265`. -/
theorem short_scenario_decision :
    evaluate_opportunity cfgC fetcherC "BTC/USDT" 0.0003 "SHORT" 500 =
      some decisionC ∧
    decisionC.direction = "SHORT" ∧
    decisionC.avg_spot_price = 100 ∧ decisionC.spot_slippage = 0 ∧
    decisionC.avg_swap_price = 101 ∧ decisionC.swap_slippage = 0 ∧
    decisionC.net_apr = 0.3285 - 0.002 :=
  ⟨eval_scenarioC, rfl, rfl, rfl, rfl, rfl, by norm_num [decisionC]⟩

/-- Inversion on a successful evaluation: it exposes the order book, both
fill results, both slippage gates, the threshold gate, and every field of
the returned decision. -/
theorem evaluate_opportunity_some_inv {config : AppConfig}
    {fetcher : DataFetcher} {symbol : String} {funding_rate : ℚ}
    {direction : String} {capital_to_use : ℚ} {d : ArbitrageDecision}
    (h : evaluate_opportunity config fetcher symbol funding_rate direction
      capital_to_use = some d) :
    ∃ order_book avg_spot spot_slip avg_swap swap_slip,
      fetcher.l2_order_book symbol = some order_book ∧
      analyze_liquidity_and_slippage
        (if direction = "SHORT" then order_book.spot.asks
          else order_book.spot.bids) capital_to_use = .ok (avg_spot, spot_slip) ∧
      analyze_liquidity_and_slippage
        (if direction = "SHORT" then order_book.swap.bids
          else order_book.swap.asks) capital_to_use = .ok (avg_swap, swap_slip) ∧
      spot_slip ≤ config.risk.max_allowed_slippage ∧
      swap_slip ≤ config.risk.max_allowed_slippage ∧
      config.strategy.min_annualized_return <
        computeNetApr funding_rate spot_slip swap_slip
          (fetcher.fee_rate symbol "spot" "taker")
          (fetcher.fee_rate symbol "swap" "taker")
          (spotEarningRate config fetcher symbol direction) 0 ∧
      d = { symbol := symbol
            direction := direction
            leverage := config.risk.leverage
            capital_to_use := capital_to_use
            estimated_funding_rate := funding_rate
            spot_ask_price := headPrice order_book.spot.asks
            spot_bid_price := headPrice order_book.spot.bids
            swap_ask_price := headPrice order_book.swap.asks
            swap_bid_price := headPrice order_book.swap.bids
            avg_spot_price := avg_spot
            avg_swap_price := avg_swap
            spot_slippage := spot_slip
            swap_slippage := swap_slip
            net_apr := computeNetApr funding_rate spot_slip swap_slip
              (fetcher.fee_rate symbol "spot" "taker")
              (fetcher.fee_rate symbol "swap" "taker")
              (spotEarningRate config fetcher symbol direction) 0
            trade_fee_cost := fetcher.fee_rate symbol "spot" "taker" +
              fetcher.fee_rate symbol "swap" "taker"
            slippage_cost := spot_slip + swap_slip
            spot_earning_rate := spotEarningRate config fetcher symbol direction
            borrow_interest_rate := 0 } := by
  unfold evaluate_opportunity at h
  split at h
  · exact absurd h (by simp)
  rename_i order_book hob
  split at h
  · rename_i hdir
    simp only [] at h
    split at h
    · exact absurd h (by simp)
    rename_i avg_spot spot_slip hspot
    split at h
    · exact absurd h (by simp)
    rename_i avg_swap swap_slip hswap
    split at h
    · exact absurd h (by simp)
    rename_i hgate
    split at h
    · rename_i hthr
      push_neg at hgate
      injection h with h2
      refine ⟨order_book, avg_spot, spot_slip, avg_swap, swap_slip, hob,
        ?_, ?_, hgate.1, hgate.2, hthr, h2.symm⟩
      · rw [if_pos hdir]; exact hspot
      · rw [if_pos hdir]; exact hswap
    · exact absurd h (by simp)
  · rename_i hdir
    simp only [] at h
    split at h
    · exact absurd h (by simp)
    rename_i avg_spot spot_slip hspot
    split at h
    · exact absurd h (by simp)
    rename_i avg_swap swap_slip hswap
    split at h
    · exact absurd h (by simp)
    rename_i hgate
    split at h
    · rename_i hthr
      push_neg at hgate
      injection h with h2
      refine ⟨order_book, avg_spot, spot_slip, avg_swap, swap_slip, hob,
        ?_, ?_, hgate.1, hgate.2, hthr, h2.symm⟩
      · rw [if_neg hdir]; exact hspot
      · rw [if_neg hdir]; exact hswap
    · exact absurd h (by simp)

/-- The three gates every returned decision has passed. -/
theorem eval_gates_of_some {config : AppConfig} {fetcher : DataFetcher}
    {symbol : String} {funding_rate : ℚ} {direction : String}
    {capital_to_use : ℚ} {d : ArbitrageDecision}
    (h : evaluate_opportunity config fetcher symbol funding_rate direction
      capital_to_use = some d) :
    d.spot_slippage ≤ config.risk.max_allowed_slippage ∧
    d.swap_slippage ≤ config.risk.max_allowed_slippage ∧
    config.strategy.min_annualized_return < d.net_apr := by
  obtain ⟨ob, aS, sS, aW, sW, _, _, _, h1, h2, h3, hd⟩ :=
    evaluate_opportunity_some_inv h
  subst hd
  exact ⟨h1, h2, h3⟩

/-- C1: for every evaluation that returns a decision, the decision's net
annualized return equals `|funding_rate| * 3 * 365` plus the yield rate,
minus `(spot_fee + swap_fee) * 2` plus `(spot_slippage + swap_slippage) * 2`,
minus the borrow rate. -/
theorem eval_net_apr_formula :
    (∀ funding_rate spot_slippage swap_slippage spot_taker_fee swap_taker_fee
        spot_earning_rate borrow_interest_rate : ℚ,
      computeNetApr funding_rate spot_slippage swap_slippage spot_taker_fee
          swap_taker_fee spot_earning_rate borrow_interest_rate =
        |funding_rate| * 3 * 365 + spot_earning_rate -
          ((spot_taker_fee + swap_taker_fee) * 2 +
            (spot_slippage + swap_slippage) * 2) - borrow_interest_rate) ∧
    (∀ (config : AppConfig) (fetcher : DataFetcher) (symbol : String)
        (funding_rate : ℚ) (direction : String) (capital_to_use : ℚ)
        (d : ArbitrageDecision),
      evaluate_opportunity config fetcher symbol funding_rate direction
          capital_to_use = some d →
      d.net_apr = |funding_rate| * 3 * 365 + d.spot_earning_rate -
        ((fetcher.fee_rate symbol "spot" "taker" +
            fetcher.fee_rate symbol "swap" "taker") * 2 +
          (d.spot_slippage + d.swap_slippage) * 2) -
        d.borrow_interest_rate) := by
  refine ⟨fun _ _ _ _ _ _ _ => by simp only [computeNetApr], ?_⟩
  intro config fetcher symbol funding_rate direction capital_to_use d h
  obtain ⟨ob, aS, sS, aW, sW, hob, hsp, hsw, h1, h2, h3, hd⟩ :=
    evaluate_opportunity_some_inv h
  subst hd
  simp only [computeNetApr]

/-- Witness for C1 on the concrete scenario. -/
theorem eval_net_apr_formula_witness :
    decisionC.net_apr = |(0.0003 : ℚ)| * 3 * 365 + decisionC.spot_earning_rate -
      ((fetcherC.fee_rate "BTC/USDT" "spot" "taker" +
          fetcherC.fee_rate "BTC/USDT" "swap" "taker") * 2 +
        (decisionC.spot_slippage + decisionC.swap_slippage) * 2) -
      decisionC.borrow_interest_rate :=
  eval_net_apr_formula.2 cfgC fetcherC "BTC/USDT" 0.0003 "SHORT" 500 decisionC
    eval_scenarioC

/-- C7: the computed net APR is antitone in the fee cost fraction, the
slippage cost fraction, and the borrow rate, and monotone in the funding
rate magnitude and the yield rate. -/
theorem net_apr_monotonicity (funding_rate spot_slippage swap_slippage
    spot_taker_fee swap_taker_fee spot_earning_rate borrow_interest_rate : ℚ) :
    (∀ sf wf : ℚ, spot_taker_fee + swap_taker_fee ≤ sf + wf →
      computeNetApr funding_rate spot_slippage swap_slippage sf wf
          spot_earning_rate borrow_interest_rate ≤
        computeNetApr funding_rate spot_slippage swap_slippage spot_taker_fee
          swap_taker_fee spot_earning_rate borrow_interest_rate) ∧
    (∀ ss ws : ℚ, spot_slippage + swap_slippage ≤ ss + ws →
      computeNetApr funding_rate ss ws spot_taker_fee swap_taker_fee
          spot_earning_rate borrow_interest_rate ≤
        computeNetApr funding_rate spot_slippage swap_slippage spot_taker_fee
          swap_taker_fee spot_earning_rate borrow_interest_rate) ∧
    (∀ br : ℚ, borrow_interest_rate ≤ br →
      computeNetApr funding_rate spot_slippage swap_slippage spot_taker_fee
          swap_taker_fee spot_earning_rate br ≤
        computeNetApr funding_rate spot_slippage swap_slippage spot_taker_fee
          swap_taker_fee spot_earning_rate borrow_interest_rate) ∧
    (∀ fr : ℚ, |funding_rate| ≤ |fr| →
      computeNetApr funding_rate spot_slippage swap_slippage spot_taker_fee
          swap_taker_fee spot_earning_rate borrow_interest_rate ≤
        computeNetApr fr spot_slippage swap_slippage spot_taker_fee
          swap_taker_fee spot_earning_rate borrow_interest_rate) ∧
    (∀ er : ℚ, spot_earning_rate ≤ er →
      computeNetApr funding_rate spot_slippage swap_slippage spot_taker_fee
          swap_taker_fee spot_earning_rate borrow_interest_rate ≤
        computeNetApr funding_rate spot_slippage swap_slippage spot_taker_fee
          swap_taker_fee er borrow_interest_rate) := by
  refine ⟨fun sf wf hle => ?_, fun ss ws hle => ?_, fun br hle => ?_,
    fun fr hle => ?_, fun er hle => ?_⟩ <;>
    simp only [computeNetApr] <;> linarith

/-- Witness for C7 at concrete inputs. -/
theorem net_apr_monotonicity_witness :
    (computeNetApr 1 0 0 (1 / 100) (1 / 100) 0 0 ≤ computeNetApr 1 0 0 0 0 0 0) ∧
    (computeNetApr 1 (1 / 100) (1 / 100) 0 0 0 0 ≤ computeNetApr 1 0 0 0 0 0 0) ∧
    (computeNetApr 1 0 0 0 0 0 (1 / 100) ≤ computeNetApr 1 0 0 0 0 0 0) ∧
    (computeNetApr 1 0 0 0 0 0 0 ≤ computeNetApr 2 0 0 0 0 0 0) ∧
    (computeNetApr 1 0 0 0 0 0 0 ≤ computeNetApr 1 0 0 0 0 (1 / 100) 0) := by
  refine ⟨(net_apr_monotonicity 1 0 0 0 0 0 0).1 (1 / 100) (1 / 100) (by norm_num),
    (net_apr_monotonicity 1 0 0 0 0 0 0).2.1 (1 / 100) (1 / 100) (by norm_num),
    (net_apr_monotonicity 1 0 0 0 0 0 0).2.2.1 (1 / 100) (by norm_num),
    (net_apr_monotonicity 1 0 0 0 0 0 0).2.2.2.1 2 (by norm_num),
    (net_apr_monotonicity 1 0 0 0 0 0 0).2.2.2.2 (1 / 100) (by norm_num)⟩

/-- Refinement comparison point for the scanner, following the words of the
spec (§4.4) and of claim C8: for each `(symbol, rate)` row in order,
evaluate SHORT exactly when `rate > 0`, evaluate LONG exactly when
`rate < 0` and the negative-rate strategy is enabled, evaluate nothing at
`rate = 0`, and collect the non-`None` results in scan order; an empty
universe or zero equity yields the empty sequence. -/
def scanSpec (config : AppConfig) (fetcher : DataFetcher) :
    List ArbitrageDecision :=
  if fetcher.funding_rates = [] ∨ fetcher.total_equity_usd = 0 then []
  else
    fetcher.funding_rates.flatMap fun sr =>
      (if sr.2 > 0 then
        (evaluate_opportunity config fetcher sr.1 sr.2 "SHORT"
          (fetcher.total_equity_usd * config.strategy.capital_per_trade_frac)).toList
      else []) ++
      (if sr.2 < 0 ∧ config.strategy.enable_negative_rate_strategy then
        (evaluate_opportunity config fetcher sr.1 sr.2 "LONG"
          (fetcher.total_equity_usd * config.strategy.capital_per_trade_frac)).toList
      else [])

/-- The imperative scan loop is the flatMap of its per-row contribution. -/
theorem scanRows_eq (config : AppConfig) (fetcher : DataFetcher)
    (capital_per_trade : ℚ) (rows : List (String × ℚ))
    (acc : List ArbitrageDecision) :
    scanRows config fetcher capital_per_trade rows acc =
      acc ++ rows.flatMap fun sr =>
        (if sr.2 > 0 then
          (evaluate_opportunity config fetcher sr.1 sr.2 "SHORT"
            capital_per_trade).toList
        else []) ++
        (if sr.2 < 0 ∧ config.strategy.enable_negative_rate_strategy then
          (evaluate_opportunity config fetcher sr.1 sr.2 "LONG"
            capital_per_trade).toList
        else []) := by
  induction rows generalizing acc with
  | nil => simp [scanRows]
  | cons sr rest ih =>
    obtain ⟨symbol, rate⟩ := sr
    simp only [scanRows]
    rw [ih, List.flatMap_cons, ← List.append_assoc, ← List.append_assoc]
    congr 2
    by_cases h1 : rate > 0
    · rw [if_pos h1, if_pos h1]
      cases hS : evaluate_opportunity config fetcher symbol rate "SHORT"
          capital_per_trade with
      | none =>
        simp only [Option.toList]
        by_cases h2 : rate < 0 ∧ config.strategy.enable_negative_rate_strategy
        · rw [if_pos h2, if_pos h2]
          cases evaluate_opportunity config fetcher symbol rate "LONG"
              capital_per_trade <;> simp [Option.toList]
        · rw [if_neg h2, if_neg h2]; simp
      | some dec =>
        simp only [Option.toList]
        by_cases h2 : rate < 0 ∧ config.strategy.enable_negative_rate_strategy
        · rw [if_pos h2, if_pos h2]
          cases evaluate_opportunity config fetcher symbol rate "LONG"
              capital_per_trade <;> simp [Option.toList]
        · rw [if_neg h2, if_neg h2]; simp
    · rw [if_neg h1, if_neg h1]
      simp only [List.nil_append]
      by_cases h2 : rate < 0 ∧ config.strategy.enable_negative_rate_strategy
      · rw [if_pos h2, if_pos h2]
        cases evaluate_opportunity config fetcher symbol rate "LONG"
            capital_per_trade <;> simp [Option.toList]
      · rw [if_neg h2, if_neg h2]; simp

/-- C8: the scanner equals its specification: per `(symbol, rate)` row it
evaluates SHORT exactly when `rate > 0`, LONG exactly when `rate < 0` with
the negative-rate strategy enabled, nothing when `rate = 0` (and never both
directions for one rate), collecting the non-`None` results in scan order;
an empty universe or zero equity short-circuits to the empty sequence. -/
theorem scan_directions_eq_spec (config : AppConfig) (fetcher : DataFetcher) :
    find_opportunities config fetcher = scanSpec config fetcher := by
  unfold find_opportunities scanSpec
  by_cases h1 : fetcher.funding_rates = []
  · rw [if_pos h1, if_pos (Or.inl h1)]
  · rw [if_neg h1]
    by_cases h2 : fetcher.total_equity_usd = 0
    · rw [if_pos h2, if_pos (Or.inr h2)]
    · rw [if_neg h2, if_neg (not_or.mpr ⟨h1, h2⟩)]
      simp only []
      rw [scanRows_eq, List.nil_append]

/-- C6: (a) every decision returned by an evaluation satisfies the two
slippage gates and the strict net-APR threshold; (b) whenever either leg's
slippage exceeds the ceiling or the net APR is at most the threshold, the
evaluation returns `None`; (c) hence every element of a scan's output
satisfies the gates. -/
theorem decision_gates :
    (∀ (config : AppConfig) (fetcher : DataFetcher) (symbol : String)
        (funding_rate : ℚ) (direction : String) (capital_to_use : ℚ)
        (d : ArbitrageDecision),
      evaluate_opportunity config fetcher symbol funding_rate direction
          capital_to_use = some d →
        d.spot_slippage ≤ config.risk.max_allowed_slippage ∧
        d.swap_slippage ≤ config.risk.max_allowed_slippage ∧
        config.strategy.min_annualized_return < d.net_apr) ∧
    (∀ (config : AppConfig) (fetcher : DataFetcher) (symbol : String)
        (funding_rate : ℚ) (direction : String) (capital_to_use : ℚ)
        (ob : OrderBook) (avg_spot spot_slip avg_swap swap_slip : ℚ),
      fetcher.l2_order_book symbol = some ob →
      analyze_liquidity_and_slippage
        (if direction = "SHORT" then ob.spot.asks else ob.spot.bids)
        capital_to_use = .ok (avg_spot, spot_slip) →
      analyze_liquidity_and_slippage
        (if direction = "SHORT" then ob.swap.bids else ob.swap.asks)
        capital_to_use = .ok (avg_swap, swap_slip) →
      (config.risk.max_allowed_slippage < spot_slip ∨
        config.risk.max_allowed_slippage < swap_slip ∨
        computeNetApr funding_rate spot_slip swap_slip
            (fetcher.fee_rate symbol "spot" "taker")
            (fetcher.fee_rate symbol "swap" "taker")
            (spotEarningRate config fetcher symbol direction) 0 ≤
          config.strategy.min_annualized_return) →
      evaluate_opportunity config fetcher symbol funding_rate direction
        capital_to_use = none) ∧
    (∀ (config : AppConfig) (fetcher : DataFetcher) (d : ArbitrageDecision),
      d ∈ find_opportunities config fetcher →
        d.spot_slippage ≤ config.risk.max_allowed_slippage ∧
        d.swap_slippage ≤ config.risk.max_allowed_slippage ∧
        config.strategy.min_annualized_return < d.net_apr) := by
  refine ⟨fun _ _ _ _ _ _ _ h => eval_gates_of_some h, ?_, ?_⟩
  · intro config fetcher symbol funding_rate direction capital_to_use ob
      avg_spot spot_slip avg_swap swap_slip hob hsp hsw hbad
    cases heval : evaluate_opportunity config fetcher symbol funding_rate
        direction capital_to_use with
    | none => rfl
    | some d =>
      exfalso
      obtain ⟨ob', aS', sS', aW', sW', hob', hsp', hsw', hg1, hg2, hg3, hd⟩ :=
        evaluate_opportunity_some_inv heval
      rw [hob] at hob'
      injection hob' with hob2
      subst hob2
      rw [hsp] at hsp'
      rw [hsw] at hsw'
      simp only [Except.ok.injEq, Prod.mk.injEq] at hsp' hsw'
      obtain ⟨rfl, rfl⟩ := hsp'
      obtain ⟨rfl, rfl⟩ := hsw'
      rcases hbad with hb | hb | hb <;> linarith
  · intro config fetcher d hmem
    unfold find_opportunities at hmem
    split_ifs at hmem with h1 h2
    · simp at hmem
    · simp at hmem
    · simp only [] at hmem
      rw [scanRows_eq, List.nil_append] at hmem
      rcases List.mem_flatMap.mp hmem with ⟨sr, hsr, hd⟩
      rcases List.mem_append.mp hd with hd2 | hd2 <;> split_ifs at hd2
      · rw [Option.mem_toList, Option.mem_def] at hd2
        exact eval_gates_of_some hd2
      · simp at hd2
      · rw [Option.mem_toList, Option.mem_def] at hd2
        exact eval_gates_of_some hd2
      · simp at hd2

/-- Witness for C6 on the concrete scenario: instantiating part (a) on the
scenario decision and part (b) on a variant whose threshold the scenario
fails. -/
theorem decision_gates_witness :
    decisionC.spot_slippage ≤ cfgC.risk.max_allowed_slippage ∧
    decisionC.swap_slippage ≤ cfgC.risk.max_allowed_slippage ∧
    cfgC.strategy.min_annualized_return < decisionC.net_apr :=
  decision_gates.1 cfgC fetcherC "BTC/USDT" 0.0003 "SHORT" 500 decisionC
    eval_scenarioC

/-- C10: (a) every returned decision quotes, for each of the four
top-of-book price fields, the first price of the corresponding book side
when that side is non-empty and 0 when it is empty (`headPrice`); (b) a
successful evaluation can thus emit a decision whose unused-side quoted
prices are 0. -/
theorem decision_quoted_prices :
    headPrice [] = (0 : ℚ) ∧
    (∀ (l : PriceLevel) (ls : List PriceLevel), headPrice (l :: ls) = l.price) ∧
    (∀ (config : AppConfig) (fetcher : DataFetcher) (symbol : String)
        (funding_rate : ℚ) (direction : String) (capital_to_use : ℚ)
        (d : ArbitrageDecision),
      evaluate_opportunity config fetcher symbol funding_rate direction
          capital_to_use = some d →
      ∃ ob, fetcher.l2_order_book symbol = some ob ∧
        d.spot_ask_price = headPrice ob.spot.asks ∧
        d.spot_bid_price = headPrice ob.spot.bids ∧
        d.swap_ask_price = headPrice ob.swap.asks ∧
        d.swap_bid_price = headPrice ob.swap.bids) ∧
    (∃ d, evaluate_opportunity cfgC fetcherC "BTC/USDT" 0.0003 "SHORT" 500 =
        some d ∧ d.spot_bid_price = 0 ∧ d.swap_ask_price = 0) := by
  refine ⟨rfl, fun l ls => rfl, ?_, ⟨decisionC, eval_scenarioC, rfl, rfl⟩⟩
  intro config fetcher symbol funding_rate direction capital_to_use d h
  obtain ⟨ob, aS, sS, aW, sW, hob, hsp, hsw, h1, h2, h3, hd⟩ :=
    evaluate_opportunity_some_inv h
  subst hd
  exact ⟨ob, hob, rfl, rfl, rfl, rfl⟩

/-- Witness for C10's evaluator part on the concrete scenario. -/
theorem decision_quoted_prices_witness :
    ∃ ob, fetcherC.l2_order_book "BTC/USDT" = some ob ∧
      decisionC.spot_ask_price = headPrice ob.spot.asks ∧
      decisionC.spot_bid_price = headPrice ob.spot.bids ∧
      decisionC.swap_ask_price = headPrice ob.swap.asks ∧
      decisionC.swap_bid_price = headPrice ob.swap.bids :=
  decision_quoted_prices.2.2.1 cfgC fetcherC "BTC/USDT" 0.0003 "SHORT" 500
    decisionC eval_scenarioC

end FRArb
